import Mathlib

/-!
Verification of src/core/background/util/util.js from the web-scrobbler
extension.  The module is shallowly embedded: JS numbers become rationals,
JS strings become lists of characters, and the promise/timer race in
timeoutPromise becomes an explicit event sequence acting on a small state
machine.
-/

namespace ScrobblerUtil

/-! ### Constants from the source module -/

/-- Mask character used when hiding strings (STR_REPLACER in the source). -/
def STR_REPLACER : Char := 'x'

/-- Length of the masked prefix (REPLACER_LEN in the source). -/
def REPLACER_LEN : Nat := 5

/-- Seconds of playback before scrobbling when no duration is known. -/
def DEFAULT_SCROBBLE_TIME : ℤ := 30

/-- Minimum number of seconds of a scrobbleable track. -/
def MIN_TRACK_DURATION : ℚ := 30

/-- Max number of seconds of playback before the track is scrobbled. -/
def MAX_SCROBBLE_TIME : ℤ := 240

/-- Percentage of song duration to scrobble. -/
def SCROBBLE_PERCENTAGE : ℚ := 50

/-! ### getSecondsToScrobble -/

/-- JS Math.round: round to the nearest integer, ties toward positive
infinity, i.e. the floor of x + 1/2. -/
def jsRound (q : ℚ) : ℤ := ⌊q + 1 / 2⌋

/-- Modelled from the spec: rounding to the nearest integer with ties
rounded away from zero, the rounding mode named by the specification.
Used only to compare the source computation against the spec wording. -/
def roundTiesAwayFromZero (q : ℚ) : ℤ :=
  if 0 ≤ q then ⌊q + 1 / 2⌋ else ⌈q - 1 / 2⌉

/-- A JS value passed as the duration argument: a finite number, or one of
the non-numeric falsy values the spec singles out. -/
inductive JSNumber where
  | num (q : ℚ)
  | undef
  | null
  | nan
deriving DecidableEq

/-- getSecondsToScrobble from the source.  A falsy duration (the number 0,
undefined, null or NaN) takes the first branch and yields
DEFAULT_SCROBBLE_TIME; a truthy duration is necessarily a nonzero number,
so the remaining branches only ever see a nonzero rational. -/
def getSecondsToScrobble : JSNumber → ℤ
  | .num q =>
    if q = 0 then DEFAULT_SCROBBLE_TIME
    else if q < MIN_TRACK_DURATION then -1
    else min (jsRound (q * SCROBBLE_PERCENTAGE / 100)) MAX_SCROBBLE_TIME
  | _ => DEFAULT_SCROBBLE_TIME

/-! ### hideString and hideStringInText -/

/-- The dollar character that introduces replacement patterns. -/
def dollarChar : Char := '$'

/-- The ampersand of the whole-match pattern. -/
def ampChar : Char := '&'

/-- The backtick of the preceding-portion pattern (code point 96). -/
def backtickChar : Char := Char.ofNat 96

/-- The single quote of the following-portion pattern (code point 39). -/
def quoteChar : Char := Char.ofNat 39

/-- ECMAScript GetSubstitution for a string search value: scan the
replacement string and expand dollar-dollar to a dollar, dollar-ampersand
to the matched substring, dollar-backtick to the portion of the original
string before the match and dollar-quote to the portion after it; a
dollar not followed by one of those (with a string pattern there are no
capture groups, so digit and angle-bracket forms stay literal) is kept
literally and scanning resumes at the next character. -/
def getSubstitution (matched orig : List Char) (position : Nat) :
    List Char → List Char
  | [] => []
  | [c] => [c]
  | c :: d :: rest =>
    if c = dollarChar then
      if d = dollarChar then
        dollarChar :: getSubstitution matched orig position rest
      else if d = ampChar then
        matched ++ getSubstitution matched orig position rest
      else if d = backtickChar then
        orig.take position ++ getSubstitution matched orig position rest
      else if d = quoteChar then
        orig.drop (position + matched.length) ++
          getSubstitution matched orig position rest
      else c :: getSubstitution matched orig position (d :: rest)
    else c :: getSubstitution matched orig position (d :: rest)

/-- Decide whether pat occurs at the head of l (JS startsWith on lists). -/
def startsWithPat (pat l : List Char) : Bool :=
  decide (l.take pat.length = pat)

/-- Scan for the first occurrence of pat, keeping the original string and
the absolute position for GetSubstitution; orig is the whole text and i
the index of the first character still to scan. -/
def replaceFirstFrom (pat repl orig : List Char) :
    Nat → List Char → List Char
  | i, [] => if pat.isEmpty then getSubstitution pat orig i repl else []
  | i, c :: rest =>
    if startsWithPat pat (c :: rest) then
      getSubstitution pat orig i repl ++ (c :: rest).drop pat.length
    else c :: replaceFirstFrom pat repl orig (i + 1) rest

/-- JS String.replace with a string pattern: replace the first occurrence
of pat in the text by repl run through GetSubstitution; if pat does not
occur the text is returned unchanged.  An empty pattern matches at the
start of the text. -/
def replaceFirst (pat repl text : List Char) : List Char :=
  replaceFirstFrom pat repl text 0 text

/-- Does this character make a substitution pattern after a dollar? -/
def isSubstIntro (d : Char) : Bool :=
  d == dollarChar || d == ampChar || d == backtickChar || d == quoteChar

/-- Does the string contain a dollar followed by a pattern character, so
that GetSubstitution would rewrite it? -/
def hasSubstPattern : List Char → Bool
  | c :: d :: rest =>
    (c == dollarChar && isSubstIntro d) || hasSubstPattern (d :: rest)
  | _ => false

/-- hideStringInText from the source.  Note that the length of the mask is
min REPLACER_LEN text.length, computed from the TEXT argument. -/
def hideStringInText (str text : List Char) : List Char :=
  if str.isEmpty || text.isEmpty then text
  else
    let replacer := List.replicate (min REPLACER_LEN text.length) STR_REPLACER
    replaceFirst str (replacer ++ str.drop replacer.length) text

/-- hideString from the source: mask the first min REPLACER_LEN str.length
characters of str and keep the rest. -/
def hideString (str : List Char) : List Char :=
  if str.isEmpty then str
  else
    let replacer := List.replicate (min REPLACER_LEN str.length) STR_REPLACER
    replacer ++ str.drop replacer.length

/-! ### timeoutPromise

The promise returned by timeoutPromise is settled either by the setTimeout
callback (which rejects with Error "promise timeout") or by the handlers
attached to the wrapped promise (which clear the timer and forward the
settlement).  A promise settles at most once: later calls to resolve or
reject are no-ops.  We model this as a state machine driven by a sequence
of events; the order of the events in the list is the order in which the
deadline and the wrapped promise fire. -/

/-- Settlement of a JS promise: fulfilled with a value or rejected with an
error. -/
inductive JSettled (ε α : Type) where
  | resolved (value : α)
  | rejected (err : ε)
deriving DecidableEq

/-- Errors the promise returned by timeoutPromise can reject with: the
Error built in the setTimeout callback, carrying its message, or the error
of the wrapped promise, forwarded as is. -/
inductive TError (ε : Type) where
  | timeoutErr (msg : String)
  | inner (err : ε)
deriving DecidableEq

/-- State of one call to timeoutPromise: the settlement of the returned
promise (none while pending), whether the deadline timer is still armed,
and whether anything has cancelled the wrapped promise (nothing in the
source ever does). -/
structure TPState (ε α : Type) where
  outer : Option (JSettled (TError ε) α)
  timerActive : Bool
  innerCancelled : Bool
deriving DecidableEq

/-- State right after timeoutPromise runs: promise pending, timer armed. -/
def tpInit (ε α : Type) : TPState ε α :=
  { outer := none, timerActive := true, innerCancelled := false }

/-- resolve: settles the outer promise unless it is already settled. -/
def resolveOuter (st : TPState ε α) (v : α) : TPState ε α :=
  if st.outer.isNone then { st with outer := some (.resolved v) } else st

/-- reject: settles the outer promise unless it is already settled. -/
def rejectOuter (st : TPState ε α) (e : TError ε) : TPState ε α :=
  if st.outer.isNone then { st with outer := some (.rejected e) } else st

/-- The deadline elapsing.  If the timer was cleared nothing happens;
otherwise the setTimeout callback rejects with Error "promise timeout". -/
def fireDeadline (st : TPState ε α) : TPState ε α :=
  if st.timerActive then
    rejectOuter { st with timerActive := false } (.timeoutErr "promise timeout")
  else st

/-- The wrapped promise settling: both handlers first call clearTimeout
and then forward the settlement to the outer promise. -/
def onSettle (st : TPState ε α) : JSettled ε α → TPState ε α
  | .resolved v => resolveOuter { st with timerActive := false } v
  | .rejected e => rejectOuter { st with timerActive := false } (.inner e)

/-- An event observed by the returned promise. -/
inductive TPEvent (ε α : Type) where
  | deadline
  | settles (s : JSettled ε α)

/-- One event step. -/
def tpStep (st : TPState ε α) : TPEvent ε α → TPState ε α
  | .deadline => fireDeadline st
  | .settles s => onSettle st s

/-- Run timeoutPromise against a sequence of events. -/
def tpRun (events : List (TPEvent ε α)) : TPState ε α :=
  events.foldl tpStep (tpInit ε α)

/-- How the settlement of the wrapped promise appears on the outer
promise: the success value unchanged, or the error wrapped as an inner
(non-timeout) failure. -/
def forwardOutcome : JSettled ε α → JSettled (TError ε) α
  | .resolved v => .resolved v
  | .rejected e => .rejected (.inner e)

/-! ### getSortedConnectors -/

/-- Modelled from the spec: an entry of the connectors collection, which
lives outside this module; all the sort reads is its human-readable label
field. -/
structure Connector where
  label : String
deriving DecidableEq

/-- The comparator passed to Array.prototype.sort, built from an abstract
locale-aware comparison lc on labels: a sorts before b when the
comparison is nonpositive. -/
def connectorLE (lc : String → String → Int) (a b : Connector) : Bool :=
  decide (lc a.label b.label ≤ 0)

/-- getSortedConnectors from the source: copy the connectors array with
slice(0) and sort the copy by label.  Array.prototype.sort is a stable
sort, modelled by mergeSort. -/
def getSortedConnectors (lc : String → String → Int)
    (connectors : List Connector) : List Connector :=
  (connectors.drop 0).mergeSort (connectorLE lc)

/-- The full effect of one call to getSortedConnectors on the shared
connectors array: the returned array, and the contents of the connectors
array after the call.  The sort happens in place on the slice(0) copy, so
the shared array is left as it was. -/
def getSortedConnectorsCall (lc : String → String → Int)
    (connectors : List Connector) : List Connector × List Connector :=
  (getSortedConnectors lc connectors, connectors)

/-! ### debugLog -/

/-- A message dispatched to the console. -/
structure LogEvent where
  level : String
  text : String
deriving DecidableEq

/-- debugLog from the source, parametrised by the names that denote
logging functions on the console object.  Looking up an unknown name
yields a non-function, so the typeof guard throws Error "Unknown log
type: ..."; otherwise the message is dispatched at the requested level. -/
def debugLog (consoleFuncs : List String) (text : String)
    (logType : String := "log") : Except String LogEvent :=
  if logType ∈ consoleFuncs then .ok ⟨logType, text⟩
  else .error ("Unknown log type: " ++ logType)

/-- A concrete comparison on labels used to exercise the sort theorems:
nonpositive exactly when the first label is at most the second in the
lexicographic string order. -/
def lcDemo (a b : String) : Int := if a ≤ b then 0 else 1

/-! ### Domain predicate for the threshold calculator -/

/-- The domain the spec gives for the calculator: any nonnegative number,
or one of the falsy non-numbers. -/
def inCalcDomain : JSNumber → Prop
  | .num q => 0 ≤ q
  | _ => True

/-! ## Claims about getSecondsToScrobble -/

/-- C1: for every numeric duration at least 30, getSecondsToScrobble
equals the rounding of half the duration (round to nearest, ties away
from zero) clamped to 240; in particular it maps 600 to 240, 100 to 50
and 30 to 15.  For nonnegative arguments the JS Math.round used by the
source agrees with the ties-away-from-zero rounding named by the spec. -/
theorem getSecondsToScrobble_half_clamped :
    (∀ q : ℚ, 30 ≤ q →
      getSecondsToScrobble (.num q) =
        min (roundTiesAwayFromZero (q * 50 / 100)) 240) ∧
    getSecondsToScrobble (.num 600) = 240 ∧
    getSecondsToScrobble (.num 100) = 50 ∧
    getSecondsToScrobble (.num 30) = 15 := by
  refine ⟨?_, ?_, ?_, ?_⟩
  · intro q h
    have hq0 : ¬ q = 0 := by intro h0; rw [h0] at h; norm_num at h
    have hqlt : ¬ q < MIN_TRACK_DURATION := by
      rw [MIN_TRACK_DURATION]; exact not_lt.mpr h
    have hnn : (0 : ℚ) ≤ q * 50 / 100 := by
      have h0 : (0 : ℚ) ≤ q := le_trans (by norm_num) h
      positivity
    simp only [getSecondsToScrobble, roundTiesAwayFromZero, jsRound,
      SCROBBLE_PERCENTAGE, MAX_SCROBBLE_TIME, if_neg hq0, if_neg hqlt,
      if_pos hnn]
  · norm_num [getSecondsToScrobble, jsRound, MIN_TRACK_DURATION,
      SCROBBLE_PERCENTAGE, MAX_SCROBBLE_TIME, DEFAULT_SCROBBLE_TIME]
  · norm_num [getSecondsToScrobble, jsRound, MIN_TRACK_DURATION,
      SCROBBLE_PERCENTAGE, MAX_SCROBBLE_TIME, DEFAULT_SCROBBLE_TIME]
  · norm_num [getSecondsToScrobble, jsRound, MIN_TRACK_DURATION,
      SCROBBLE_PERCENTAGE, MAX_SCROBBLE_TIME, DEFAULT_SCROBBLE_TIME]

/-- Witness for C1 at duration 600. -/
theorem getSecondsToScrobble_half_clamped_wit :
    30 ≤ (600 : ℚ) ∧
      getSecondsToScrobble (.num 600) =
        min (roundTiesAwayFromZero (600 * 50 / 100)) 240 :=
  ⟨by norm_num, getSecondsToScrobble_half_clamped.1 600 (by norm_num)⟩

/-- C2: every falsy duration (the number 0, undefined, null, NaN) yields
DEFAULT_SCROBBLE_TIME, which is 30. -/
theorem getSecondsToScrobble_falsy_default :
    getSecondsToScrobble (.num 0) = 30 ∧
    getSecondsToScrobble .undef = 30 ∧
    getSecondsToScrobble .null = 30 ∧
    getSecondsToScrobble .nan = 30 ∧
    DEFAULT_SCROBBLE_TIME = 30 := by
  refine ⟨?_, ?_, ?_, ?_, rfl⟩ <;>
    norm_num [getSecondsToScrobble, DEFAULT_SCROBBLE_TIME]

/-- C3: every duration strictly between 0 and 30 yields the sentinel -1. -/
theorem getSecondsToScrobble_short_sentinel (q : ℚ) (hpos : 0 < q)
    (hlt : q < 30) : getSecondsToScrobble (.num q) = -1 := by
  have hq0 : ¬ q = 0 := ne_of_gt hpos
  have h : q < MIN_TRACK_DURATION := by rw [MIN_TRACK_DURATION]; exact hlt
  simp [getSecondsToScrobble, hq0, h]

/-- Witness for C3 at duration 15. -/
theorem getSecondsToScrobble_short_sentinel_wit :
    0 < (15 : ℚ) ∧ (15 : ℚ) < 30 ∧ getSecondsToScrobble (.num 15) = -1 :=
  ⟨by norm_num, by norm_num,
    getSecondsToScrobble_short_sentinel 15 (by norm_num) (by norm_num)⟩

/-- C4: over the whole domain (nonnegative numbers and the falsy values),
the result is either the sentinel -1 or lies in the interval [1, 240];
it is never zero and never negative other than -1. -/
theorem getSecondsToScrobble_range (d : JSNumber) (h : inCalcDomain d) :
    getSecondsToScrobble d = -1 ∨
      (1 ≤ getSecondsToScrobble d ∧ getSecondsToScrobble d ≤ 240) := by
  cases d with
  | num q =>
    by_cases hq0 : q = 0
    · right; simp [getSecondsToScrobble, hq0, DEFAULT_SCROBBLE_TIME]
    · by_cases hlt : q < MIN_TRACK_DURATION
      · left; simp [getSecondsToScrobble, hq0, hlt]
      · right
        have h30 : (30 : ℚ) ≤ q := by
          rw [MIN_TRACK_DURATION] at hlt; exact not_lt.mp hlt
        have h15 : (15 : ℤ) ≤ jsRound (q * SCROBBLE_PERCENTAGE / 100) := by
          rw [jsRound, SCROBBLE_PERCENTAGE]
          refine Int.le_floor.mpr ?_
          push_cast
          linarith
        simp only [getSecondsToScrobble, if_neg hq0, if_neg hlt,
          MAX_SCROBBLE_TIME]
        constructor
        · exact le_min (by linarith) (by norm_num)
        · exact min_le_right _ _
  | undef => right; simp [getSecondsToScrobble, DEFAULT_SCROBBLE_TIME]
  | null => right; simp [getSecondsToScrobble, DEFAULT_SCROBBLE_TIME]
  | nan => right; simp [getSecondsToScrobble, DEFAULT_SCROBBLE_TIME]

/-- Witness for C4 at duration 600. -/
theorem getSecondsToScrobble_range_wit :
    inCalcDomain (.num 600) ∧
      (getSecondsToScrobble (.num 600) = -1 ∨
        (1 ≤ getSecondsToScrobble (.num 600) ∧
          getSecondsToScrobble (.num 600) ≤ 240)) :=
  ⟨by simp [inCalcDomain],
    getSecondsToScrobble_range (.num 600) (by simp [inCalcDomain])⟩

/-! ## Claims about hideString and hideStringInText -/

/-- Unfolding equation of getSubstitution on two or more characters. -/
theorem getSubstitution_cons2 (matched orig : List Char) (position : Nat)
    (c d : Char) (rest : List Char) :
    getSubstitution matched orig position (c :: d :: rest) =
      if c = dollarChar then
        if d = dollarChar then
          dollarChar :: getSubstitution matched orig position rest
        else if d = ampChar then
          matched ++ getSubstitution matched orig position rest
        else if d = backtickChar then
          orig.take position ++ getSubstitution matched orig position rest
        else if d = quoteChar then
          orig.drop (position + matched.length) ++
            getSubstitution matched orig position rest
        else c :: getSubstitution matched orig position (d :: rest)
      else c :: getSubstitution matched orig position (d :: rest) := rfl

/-- Unfolding equation of hasSubstPattern on two or more characters. -/
theorem hasSubstPattern_cons2 (c d : Char) (rest : List Char) :
    hasSubstPattern (c :: d :: rest) =
      ((c == dollarChar && isSubstIntro d) || hasSubstPattern (d :: rest)) :=
  rfl

/-- A replacement string without substitution patterns passes through
GetSubstitution unchanged. -/
theorem getSubstitution_no_pattern (matched orig : List Char)
    (position : Nat) (repl : List Char)
    (h : hasSubstPattern repl = false) :
    getSubstitution matched orig position repl = repl := by
  induction repl with
  | nil => rfl
  | cons c tail ih =>
    cases tail with
    | nil => rfl
    | cons d rest =>
      rw [hasSubstPattern_cons2, Bool.or_eq_false_iff] at h
      have htail := ih h.2
      rw [getSubstitution_cons2]
      by_cases hc : c = dollarChar
      · have hd : isSubstIntro d = false := by
          rcases Bool.and_eq_false_iff.mp h.1 with h1 | h1
          · exact absurd hc (by simpa using h1)
          · exact h1
        simp only [isSubstIntro, Bool.or_eq_false_iff, beq_eq_false_iff_ne,
          ne_eq] at hd
        rw [if_pos hc, if_neg hd.1.1.1, if_neg hd.1.1.2, if_neg hd.1.2,
          if_neg hd.2, htail]
      · rw [if_neg hc, htail]

/-- Prepending anything but a dollar cannot create a pattern. -/
theorem hasSubstPattern_cons_of_ne (c : Char) (l : List Char)
    (hc : (c == dollarChar) = false) :
    hasSubstPattern (c :: l) = hasSubstPattern l := by
  cases l with
  | nil => rfl
  | cons d rest =>
    rw [hasSubstPattern_cons2, hc, Bool.false_and, Bool.false_or]

/-- The mask of STR_REPLACER characters adds no substitution pattern. -/
theorem hasSubstPattern_replicate_append (n : Nat) (l : List Char) :
    hasSubstPattern (List.replicate n STR_REPLACER ++ l) =
      hasSubstPattern l := by
  induction n with
  | zero => rw [List.replicate_zero, List.nil_append]
  | succ m ih =>
    rw [List.replicate_succ, List.cons_append,
      hasSubstPattern_cons_of_ne _ _ (by decide), ih]

/-- Unfolding equation of replaceFirstFrom on a nonempty text. -/
theorem replaceFirstFrom_cons (pat repl orig : List Char) (i : Nat)
    (c : Char) (rest : List Char) :
    replaceFirstFrom pat repl orig i (c :: rest) =
      if startsWithPat pat (c :: rest) then
        getSubstitution pat orig i repl ++ (c :: rest).drop pat.length
      else c :: replaceFirstFrom pat repl orig (i + 1) rest := rfl

/-- replaceFirst rewrites exactly the first occurrence of the pattern:
when the text splits as pre ++ pat ++ post and no occurrence starts inside
pre, the result splices in the substituted replacement at that spot. -/
theorem replaceFirstFrom_append (pat repl orig pre post : List Char)
    (hpat : pat ≠ [])
    (hfirst : ∀ j, j < pre.length →
      startsWithPat pat ((pre ++ pat ++ post).drop j) = false) :
    ∀ i : Nat, replaceFirstFrom pat repl orig i (pre ++ pat ++ post) =
      pre ++ getSubstitution pat orig (i + pre.length) repl ++ post := by
  induction pre with
  | nil =>
    intro i
    obtain ⟨c, pt, hc⟩ := List.exists_cons_of_ne_nil hpat
    have hstart : startsWithPat pat (pat ++ post) = true := by
      simp [startsWithPat, List.take_left]
    simp only [List.nil_append, List.length_nil, Nat.add_zero]
    conv_lhs => rw [hc, List.cons_append, replaceFirstFrom_cons,
      ← List.cons_append, ← hc]
    rw [if_pos hstart, List.drop_left]
  | cons c pre ih =>
    intro i
    have h0 := hfirst 0 (by simp only [List.length_cons]; omega)
    simp only [List.drop_zero, List.cons_append] at h0
    simp only [List.cons_append, List.length_cons]
    rw [replaceFirstFrom_cons, if_neg (by rw [h0]; exact Bool.false_ne_true)]
    congr 1
    have hfirst2 : ∀ j, j < pre.length →
        startsWithPat pat ((pre ++ pat ++ post).drop j) = false := by
      intro j hj
      have h := hfirst (j + 1) (by simp only [List.length_cons]; omega)
      simp only [List.cons_append, List.drop_succ_cons] at h
      exact h
    rw [ih hfirst2 (i + 1),
      (by omega : i + 1 + pre.length = i + (pre.length + 1))]

/-- replaceFirst unfolds to the scan from position zero. -/
theorem replaceFirst_def (pat repl text : List Char) :
    replaceFirst pat repl text = replaceFirstFrom pat repl text 0 text := rfl

/-- Unfolding equation of hideStringInText on nonempty arguments. -/
theorem hideStringInText_eq (str text : List Char)
    (h1 : str.isEmpty = false) (h2 : text.isEmpty = false) :
    hideStringInText str text =
      replaceFirst str
        (List.replicate (min REPLACER_LEN text.length) STR_REPLACER ++
          str.drop (min REPLACER_LEN text.length)) text := by
  unfold hideStringInText
  rw [h1, h2]
  simp only [Bool.or_self, Bool.false_eq_true, if_false, List.length_replicate]

/-- C7 counterexample: a secret whose part beyond the mask contains the
whole-match pattern (dollar-ampersand).  All premises of the masking
claim hold, yet the source expands the pattern to the matched secret, so
the remainder is not preserved verbatim and the output differs from the
claimed splice. -/
theorem hideStringInText_masks_first_cex :
    ("abcde$&fg".toList ≠ ([] : List Char)) ∧
    ("k=abcde$&fg;".toList =
      "k=".toList ++ "abcde$&fg".toList ++ ";".toList) ∧
    (∀ i, i < ("k=".toList).length →
      startsWithPat ("abcde$&fg".toList)
        (("k=abcde$&fg;".toList).drop i) = false) ∧
    hideStringInText ("abcde$&fg".toList) ("k=abcde$&fg;".toList) =
      "k=xxxxxabcde$&fgfg;".toList ∧
    hideStringInText ("abcde$&fg".toList) ("k=abcde$&fg;".toList) ≠
      "k=".toList ++
        (List.replicate (min REPLACER_LEN ("k=abcde$&fg;".toList).length)
            STR_REPLACER ++
          ("abcde$&fg".toList).drop
            (min REPLACER_LEN ("k=abcde$&fg;".toList).length)) ++
        ";".toList :=
  ⟨by decide, by decide, by decide, by decide, by decide⟩

/-- C7 as amended: for nonempty secret and text, provided the part of the
secret beyond the masked prefix contains no substitution pattern (a
dollar followed by dollar, ampersand, backtick or quote, which JS
replace would expand), hideStringInText rewrites exactly the first
occurrence of the secret, replacing it by a mask of
min REPLACER_LEN text.length times the character STR_REPLACER followed
by the part of the secret beyond that prefix, with the surrounding text
left intact; an empty secret or an empty text comes back unchanged.  The
masked prefix length in the source is computed from the length of the
TEXT argument. -/
theorem hideStringInText_masks_first (str text pre post : List Char)
    (hstr : str ≠ []) (hsplit : text = pre ++ str ++ post)
    (hfirst : ∀ i, i < pre.length →
      startsWithPat str (text.drop i) = false)
    (hnosub : hasSubstPattern
      (str.drop (min REPLACER_LEN text.length)) = false) :
    hideStringInText str text =
      pre ++ (List.replicate (min REPLACER_LEN text.length) STR_REPLACER ++
        str.drop (min REPLACER_LEN text.length)) ++ post ∧
    (∀ t, hideStringInText [] t = t) ∧
    (∀ s, hideStringInText s [] = []) := by
  subst hsplit
  refine ⟨?_, ?_, ?_⟩
  · have h1 : str.isEmpty = false := by
      cases str with
      | nil => exact absurd rfl hstr
      | cons c cs => rfl
    have h2 : (pre ++ str ++ post).isEmpty = false := by
      obtain ⟨c, cs, hc⟩ := List.exists_cons_of_ne_nil hstr
      cases pre with
      | nil => rw [hc]; rfl
      | cons d ds => rfl
    have hns : hasSubstPattern
        (List.replicate (min REPLACER_LEN (pre ++ str ++ post).length)
            STR_REPLACER ++
          str.drop (min REPLACER_LEN (pre ++ str ++ post).length)) =
        false := by
      rw [hasSubstPattern_replicate_append]
      exact hnosub
    rw [hideStringInText_eq _ _ h1 h2, replaceFirst_def,
      replaceFirstFrom_append str _ _ pre post hstr hfirst 0,
      getSubstitution_no_pattern _ _ _ _ hns]
  · intro t
    simp [hideStringInText]
  · intro s
    simp [hideStringInText]

/-- Witness for C7: the secret secret123 inside token=secret123; has its
first five characters masked and the tail 123 with the punctuation kept;
the tail t123 contains no substitution pattern. -/
theorem hideStringInText_masks_first_wit :
    ("secret123".toList ≠ ([] : List Char)) ∧
    ("token=secret123;".toList =
      "token=".toList ++ "secret123".toList ++ ";".toList) ∧
    (∀ i, i < ("token=".toList).length →
      startsWithPat ("secret123".toList)
        (("token=secret123;".toList).drop i) = false) ∧
    hasSubstPattern
      (("secret123".toList).drop
        (min REPLACER_LEN ("token=secret123;".toList).length)) = false ∧
    (hideStringInText ("secret123".toList) ("token=secret123;".toList) =
      "token=".toList ++
        (List.replicate (min REPLACER_LEN ("token=secret123;".toList).length)
            STR_REPLACER ++
          ("secret123".toList).drop
            (min REPLACER_LEN ("token=secret123;".toList).length)) ++
        ";".toList ∧
      (∀ t, hideStringInText [] t = t) ∧
      (∀ s, hideStringInText s [] = [])) :=
  ⟨by decide, by decide, by decide, by decide,
    hideStringInText_masks_first ("secret123".toList)
      ("token=secret123;".toList) ("token=".toList) (";".toList)
      (by decide) (by decide) (by decide) (by decide)⟩

/-- C10: hideString preserves the length of its argument (the mask takes
min REPLACER_LEN str.length characters and the rest of the string is
kept), and the empty string comes back unchanged. -/
theorem hideString_length_invariant :
    ∀ str : List Char,
      (hideString str).length = str.length ∧
        hideString [] = ([] : List Char) := by
  intro str
  constructor
  · by_cases h : str.isEmpty
    · have hnil : str = [] := List.isEmpty_iff.mp h
      simp [hideString, hnil]
    · simp only [hideString, if_neg h, List.length_append,
        List.length_replicate, List.length_drop]
      omega
  · simp [hideString]

/-! ## Claims about timeoutPromise -/

/-- Once the outer promise is settled, the timer cleared and nothing
cancelled, a further event changes none of that: settling an already
settled promise is a no-op, and a cleared timer never fires. -/
theorem tpStep_stable (st : TPState ε α) (e : TPEvent ε α)
    (hsome : st.outer.isSome) (ht : st.timerActive = false)
    (hc : st.innerCancelled = false) :
    (tpStep st e).outer = st.outer ∧ (tpStep st e).timerActive = false ∧
      (tpStep st e).innerCancelled = false := by
  have hnone : st.outer.isNone = false := by
    cases h : st.outer with
    | none => rw [h] at hsome; simp [Option.isSome] at hsome
    | some v => simp [Option.isNone]
  cases e with
  | deadline =>
    simp [tpStep, fireDeadline, ht, hc]
  | settles s =>
    cases s with
    | resolved v =>
      simp [tpStep, onSettle, resolveOuter, hnone, hc]
    | rejected er =>
      simp [tpStep, onSettle, rejectOuter, hnone, hc]

/-- The stability of tpStep extends over any sequence of later events. -/
theorem tpRun_stable (events : List (TPEvent ε α)) :
    ∀ st : TPState ε α, st.outer.isSome → st.timerActive = false →
      st.innerCancelled = false →
      (events.foldl tpStep st).outer = st.outer ∧
        (events.foldl tpStep st).timerActive = false ∧
        (events.foldl tpStep st).innerCancelled = false := by
  induction events with
  | nil => intro st h1 h2 h3; exact ⟨rfl, h2, h3⟩
  | cons e rest ih =>
    intro st h1 h2 h3
    have hs := tpStep_stable st e h1 h2 h3
    have hsome : (tpStep st e).outer.isSome := by
      rw [hs.1]; exact h1
    have hrest := ih (tpStep st e) hsome hs.2.1 hs.2.2
    simp only [List.foldl_cons]
    exact ⟨hrest.1.trans hs.1, hrest.2.1, hrest.2.2⟩

/-- C5: when the wrapped promise settles before the deadline, the timer
is cleared and its outcome is forwarded unchanged, whatever happens
afterwards: a success value stays the same, a rejection keeps the same
error, and the result is never the timeout failure. -/
theorem timeoutPromise_forwards_settled (s : JSettled ε α)
    (rest : List (TPEvent ε α)) :
    (tpRun (.settles s :: rest)).outer = some (forwardOutcome s) ∧
    (tpRun (.settles s :: rest)).timerActive = false ∧
    ∀ msg, (tpRun (.settles s :: rest)).outer ≠
      some (.rejected (.timeoutErr msg)) := by
  have hstep : tpStep (tpInit ε α) (.settles s) =
      { outer := some (forwardOutcome s), timerActive := false,
        innerCancelled := false } := by
    cases s with
    | resolved v => simp [tpStep, onSettle, resolveOuter, tpInit, forwardOutcome]
    | rejected er => simp [tpStep, onSettle, rejectOuter, tpInit, forwardOutcome]
  have hrun : tpRun (.settles s :: rest) =
      rest.foldl tpStep (tpStep (tpInit ε α) (.settles s)) := by
    simp [tpRun, List.foldl_cons]
  rw [hrun, hstep]
  have hstable := tpRun_stable rest
    { outer := some (forwardOutcome s), timerActive := false,
      innerCancelled := false } (by simp) rfl rfl
  refine ⟨hstable.1, hstable.2.1, ?_⟩
  intro msg hcontra
  rw [hstable.1] at hcontra
  cases s with
  | resolved v => simp [forwardOutcome] at hcontra
  | rejected er => simp [forwardOutcome] at hcontra

/-- Witness for C5: a promise resolving with 42 before the deadline. -/
theorem timeoutPromise_forwards_settled_wit :
    (tpRun [.settles (.resolved 42), .deadline] : TPState String Nat).outer =
      some (forwardOutcome (.resolved 42)) ∧
    (tpRun [.settles (.resolved 42), .deadline] :
      TPState String Nat).timerActive = false ∧
    ∀ msg, (tpRun [.settles (.resolved 42), .deadline] :
      TPState String Nat).outer ≠ some (.rejected (.timeoutErr msg)) :=
  timeoutPromise_forwards_settled (.resolved 42) [.deadline]

/-- C6: when the deadline elapses before the wrapped promise settles, the
returned promise is rejected with the fixed message promise timeout, even
if the wrapped promise settles later, and the wrapped promise is never
cancelled. -/
theorem timeoutPromise_deadline_rejects (rest : List (TPEvent ε α)) :
    (tpRun (.deadline :: rest)).outer =
      some (.rejected (.timeoutErr "promise timeout")) ∧
    (tpRun (.deadline :: rest)).innerCancelled = false := by
  have hstep : tpStep (tpInit ε α) .deadline =
      { outer := some (.rejected (.timeoutErr "promise timeout")),
        timerActive := false, innerCancelled := false } := by
    simp [tpStep, fireDeadline, rejectOuter, tpInit]
  have hrun : tpRun (.deadline :: rest) =
      rest.foldl tpStep (tpStep (tpInit ε α) .deadline) := by
    simp [tpRun, List.foldl_cons]
  rw [hrun, hstep]
  have hstable := tpRun_stable rest
    { outer := some (.rejected (.timeoutErr "promise timeout")),
      timerActive := false, innerCancelled := false } (by simp) rfl rfl
  exact ⟨hstable.1, hstable.2.2⟩

/-- Witness for C6: the deadline fires, then the promise resolves late. -/
theorem timeoutPromise_deadline_rejects_wit :
    (tpRun [.deadline, .settles (.resolved 42)] :
      TPState String Nat).outer =
      some (.rejected (.timeoutErr "promise timeout")) ∧
    (tpRun [.deadline, .settles (.resolved 42)] :
      TPState String Nat).innerCancelled = false :=
  timeoutPromise_deadline_rejects [.settles (.resolved 42)]

/-! ## Claims about getSortedConnectors -/

/-- C8: under a total and transitive comparison on labels, one call to
getSortedConnectors leaves the shared connectors array unchanged and
returns an ordering of it: the result is sorted by label, is a
permutation of the input, and sorting the result again gives the same
order. -/
theorem getSortedConnectors_ordered (lc : String → String → Int)
    (cs : List Connector)
    (htotal : ∀ a b : String, lc a b ≤ 0 ∨ lc b a ≤ 0)
    (htrans : ∀ a b c : String,
      lc a b ≤ 0 → lc b c ≤ 0 → lc a c ≤ 0) :
    (getSortedConnectorsCall lc cs).2 = cs ∧
    (getSortedConnectorsCall lc cs).1.Pairwise
      (fun a b => lc a.label b.label ≤ 0) ∧
    (getSortedConnectorsCall lc cs).1.Perm cs ∧
    getSortedConnectors lc (getSortedConnectors lc cs) =
      getSortedConnectors lc cs := by
  have btrans : ∀ a b c : Connector,
      connectorLE lc a b → connectorLE lc b c → connectorLE lc a c := by
    intro a b c h1 h2
    simp only [connectorLE, decide_eq_true_eq] at h1 h2 ⊢
    exact htrans a.label b.label c.label h1 h2
  have btotal : ∀ a b : Connector,
      connectorLE lc a b || connectorLE lc b a := by
    intro a b
    simp only [connectorLE, Bool.or_eq_true, decide_eq_true_eq]
    exact htotal a.label b.label
  refine ⟨rfl, ?_, ?_, ?_⟩
  · have h := List.sorted_mergeSort btrans btotal (cs.drop 0)
    simp only [getSortedConnectorsCall, getSortedConnectors]
    refine h.imp ?_
    intro a b hab
    simpa [connectorLE, decide_eq_true_eq] using hab
  · simp only [getSortedConnectorsCall, getSortedConnectors, List.drop_zero]
    exact List.mergeSort_perm cs (connectorLE lc)
  · simp only [getSortedConnectors, List.drop_zero]
    exact List.mergeSort_of_sorted
      (List.sorted_mergeSort btrans btotal cs)

/-- The demo comparison is nonpositive exactly for ordered labels. -/
theorem lcDemo_nonpos_iff (a b : String) : lcDemo a b ≤ 0 ↔ a ≤ b := by
  unfold lcDemo
  split
  · next h => simpa using h
  · next h =>
      constructor
      · intro h10; norm_num at h10
      · intro hab; exact absurd hab h

/-- Witness for C8 on a two-element connectors collection. -/
theorem getSortedConnectors_ordered_wit :
    (∀ a b : String, lcDemo a b ≤ 0 ∨ lcDemo b a ≤ 0) ∧
    (∀ a b c : String,
      lcDemo a b ≤ 0 → lcDemo b c ≤ 0 → lcDemo a c ≤ 0) ∧
    ((getSortedConnectorsCall lcDemo [⟨"spotify"⟩, ⟨"bandcamp"⟩]).2 =
        [⟨"spotify"⟩, ⟨"bandcamp"⟩] ∧
      (getSortedConnectorsCall lcDemo [⟨"spotify"⟩, ⟨"bandcamp"⟩]).1.Pairwise
        (fun a b => lcDemo a.label b.label ≤ 0) ∧
      (getSortedConnectorsCall lcDemo
        [⟨"spotify"⟩, ⟨"bandcamp"⟩]).1.Perm [⟨"spotify"⟩, ⟨"bandcamp"⟩] ∧
      getSortedConnectors lcDemo
          (getSortedConnectors lcDemo [⟨"spotify"⟩, ⟨"bandcamp"⟩]) =
        getSortedConnectors lcDemo [⟨"spotify"⟩, ⟨"bandcamp"⟩]) := by
  have htotal : ∀ a b : String, lcDemo a b ≤ 0 ∨ lcDemo b a ≤ 0 := by
    intro a b
    rcases le_total a b with h | h
    · exact Or.inl ((lcDemo_nonpos_iff a b).mpr h)
    · exact Or.inr ((lcDemo_nonpos_iff b a).mpr h)
  have htrans : ∀ a b c : String,
      lcDemo a b ≤ 0 → lcDemo b c ≤ 0 → lcDemo a c ≤ 0 := by
    intro a b c h1 h2
    exact (lcDemo_nonpos_iff a c).mpr
      (le_trans ((lcDemo_nonpos_iff a b).mp h1)
        ((lcDemo_nonpos_iff b c).mp h2))
  exact ⟨htotal, htrans,
    getSortedConnectors_ordered lcDemo [⟨"spotify"⟩, ⟨"bandcamp"⟩]
      htotal htrans⟩

/-! ## Claim about debugLog -/

/-- C9: debugLog fails exactly when the requested level is not among the
names denoting logging functions on the console; a recognized level
dispatches the message at that level without failing. -/
theorem debugLog_throws_iff (consoleFuncs : List String)
    (text logType : String) :
    ((∃ msg, debugLog consoleFuncs text logType = .error msg) ↔
      logType ∉ consoleFuncs) ∧
    (logType ∈ consoleFuncs →
      debugLog consoleFuncs text logType = .ok ⟨logType, text⟩) := by
  by_cases h : logType ∈ consoleFuncs <;> simp [debugLog, h]

/-- Witness for C9 at the recognized level warn. -/
theorem debugLog_throws_iff_wit :
    (((∃ msg, debugLog ["log", "warn", "error"] "hello" "warn" =
        .error msg) ↔ "warn" ∉ ["log", "warn", "error"]) ∧
    ("warn" ∈ ["log", "warn", "error"] →
      debugLog ["log", "warn", "error"] "hello" "warn" =
        .ok ⟨"warn", "hello"⟩)) ∧
    debugLog ["log", "warn", "error"] "hello" "warn" =
      .ok ⟨"warn", "hello"⟩ :=
  ⟨debugLog_throws_iff ["log", "warn", "error"] "hello" "warn",
    (debugLog_throws_iff ["log", "warn", "error"] "hello" "warn").2
      (by decide)⟩

end ScrobblerUtil
